import Mathlib

/-!
# Verification of the Beetle extension's review-session reconciliation engine

Shallow embedding, in Lean 4, of the progressive review-session logic of the
Beetle VS Code extension (`src/views/BeetleViewProvider.ts` and
`src/services/BeetleService.ts`), together with proofs of the testable
properties stated in the specification.

Modelling conventions:
* TypeScript strings are Lean `String`s; a JavaScript "falsy" string test
  (`if (s)`) is modelled as `s ≠ ""`, since the only falsy string is `""`.
* Fields that may be `undefined`/`null` in the dynamic objects are modelled
  with the empty string / `Option` / a `Bool` default, matching how the code
  itself tests them (always by truthiness).
* `Date` values are modelled as `Nat` timestamps.
* External capabilities (the filesystem read, the SHA-256 digest, the
  `git diff` subprocesses, the HTTP service) are parameters of the
  definitions: the code shells out or calls the host API for these, and the
  specification lists them as external collaborators.
* Machine numbers here are line/issue counters; they are modelled as `Nat`
  (the JS code only ever increments them from 0) and the wire line anchors
  as `Int`.
-/

namespace Beetle

/-! ## Data model (spec §3; `BeetleViewProvider.ts` session objects) -/

/-- A raw comment payload as returned by the remote service
(`rawComment` shape, spec §6). -/
structure RawComment where
  file_path : String
  line_start : Int
  line_end : Int
  title : String
  confidence : String
  content : String
deriving DecidableEq

/-- A comment stored in a session, as built by `addCommentToSession`
(`BeetleViewProvider.ts:1457-1467`).  The `resolved` flag is absent
(undefined, hence falsy) until resolution-marking sets it, so it is
modelled as a `Bool` defaulting to `false`. -/
structure Comment where
  id : String
  file_path : String
  line_start : Int
  line_end : Int
  severity : String
  title : String
  confidence : String
  content : String
  created_at : Nat
  resolved : Bool := false
deriving DecidableEq

/-- A per-file comment group inside a session (`ReviewedFileRecord`,
spec §3; initialised at `BeetleViewProvider.ts:768-780`).  Groups created
on the fly by the ingestor (`BeetleViewProvider.ts:1475-1482`) lack the
`lastReviewed*` fields; those are modelled by the `""`/`0` defaults,
matching the code's truthiness tests. -/
structure FileGroup where
  filePath : String
  comments : List Comment
  criticalCount : Nat
  highCount : Nat
  issueCount : Nat
  expanded : Bool
  lastReviewedHash : String := ""
  lastReviewedContent : String := ""
  lastReviewedPatch : String := ""
  reviewedAt : Nat := 0
deriving DecidableEq

/-- A review session (`ReviewSession`, spec §3; built at
`BeetleViewProvider.ts:754-783`). -/
structure Session where
  dataId : String
  title : String
  branchFrom : String
  branchTo : String
  status : String
  totalComments : Nat
  resolvedComments : Nat
  files : List FileGroup
  createdAt : Nat := 0
deriving DecidableEq

/-- The provider's mutable session fields
(`BeetleViewProvider.ts:51-53`): the session list, the current session and
the current review id. -/
structure ProviderState where
  sessions : List Session
  currentSession : Option Session
  currentReviewId : Option String
deriving DecidableEq

/-! ## Generic list helper

`updateFirst p f l` replaces the first element satisfying `p` by its
`f`-image and leaves everything else unchanged.  This is the effect of the
JS idiom "find the first matching element of the array and mutate it in
place", used for file groups, comments and sessions alike. -/

def updateFirst {α : Type} (p : α → Bool) (f : α → α) : List α → List α
  | [] => []
  | x :: xs => if p x then f x :: xs else x :: updateFirst p f xs

/-! ## Severity extraction (`extractSeverity`, `BeetleViewProvider.ts:1507-1528`)

The code matches the regex `\*\*Severity\*\*:\s*(\w+)` against the comment
content and falls back to a keyword heuristic over the lowercased text.
The regex is embedded directly: scan left to right for the first position
where the literal marker `**Severity**:`, optional whitespace, and at least
one word character match; capture the maximal word.  (Maximal-munch for
`\s*` is exact here because a word character is never a whitespace
character, so no backtracking can produce a different first match.) -/

/-- JS regex `\w`: ASCII letters, digits, underscore. -/
def isWordChar (c : Char) : Bool :=
  (('a' ≤ c && c ≤ 'z') || ('A' ≤ c && c ≤ 'Z') || ('0' ≤ c && c ≤ '9') || c = '_')

/-- Maximal run of word characters at the head of the list. -/
def takeWordChars : List Char → List Char
  | [] => []
  | c :: cs => if isWordChar c then c :: takeWordChars cs else []

/-- Try to match `\*\*Severity\*\*:\s*(\w+)` at the head of the character
list; return the captured word on success. -/
def matchSeverityAt (l : List Char) : Option String :=
  if "**Severity**:".data.isPrefixOf l then
    let rest := (l.drop "**Severity**:".data.length).dropWhile Char.isWhitespace
    let w := takeWordChars rest
    if w = [] then none else some (String.mk w)
  else none

/-- First match of the severity regex anywhere in the content
(JS `String.prototype.match` without `g`: leftmost match). -/
def findSeverityMatch : List Char → Option String
  | [] => none
  | c :: cs =>
    match matchSeverityAt (c :: cs) with
    | some w => some w
    | none => findSeverityMatch cs

/-- Substring containment over character lists
(JS `String.prototype.includes`). -/
def containsSubstr (needle : List Char) : List Char → Bool
  | [] => needle.isEmpty
  | c :: cs => needle.isPrefixOf (c :: cs) || containsSubstr needle cs

/-- `extractSeverity` (`BeetleViewProvider.ts:1507-1528`): structured marker
first; if it is absent or captures an unknown word, the keyword fallback
over the lowercased content decides. -/
def extractSeverity (content : String) : String :=
  let fallback :=
    let lc := content.data.map Char.toLower
    if containsSubstr "critical".data lc || containsSubstr "security".data lc then "Critical"
    else if containsSubstr "warning".data lc || containsSubstr "potential issue".data lc then "High"
    else if containsSubstr "suggestion".data lc then "Medium"
    else "Low"
  match findSeverityMatch content.data with
  | some sev =>
    if sev = "Critical" || sev = "High" || sev = "Medium" || sev = "Low" then sev
    else fallback
  | none => fallback

/-! ## Comment ingestion (`addCommentToSession`, `BeetleViewProvider.ts:1441-1502`) -/

/-- The comment object built at `BeetleViewProvider.ts:1457-1467`.
`now` is `Date.now()` (used for the synthesized id and `created_at`);
`commentData.confidence || '3/5'` is the usual falsy-string default. -/
def mkComment (dataId : String) (now : Nat) (severity : String) (commentData : RawComment) : Comment :=
  { id := dataId ++ "-" ++ toString now
    file_path := commentData.file_path
    line_start := commentData.line_start
    line_end := commentData.line_end
    severity := severity
    title := commentData.title
    confidence := if commentData.confidence = "" then "3/5" else commentData.confidence
    content := commentData.content
    created_at := now }

/-- Count update of `BeetleViewProvider.ts:1490-1496`: `Critical` bumps
`criticalCount` and `issueCount`, `High` bumps `highCount` and
`issueCount`, anything else changes no counter. -/
def bumpCounts (severity : String) (g : FileGroup) : FileGroup :=
  if severity = "Critical" then
    { g with criticalCount := g.criticalCount + 1, issueCount := g.issueCount + 1 }
  else if severity = "High" then
    { g with highCount := g.highCount + 1, issueCount := g.issueCount + 1 }
  else g

/-- The fresh file group created when the server references a path outside
the submitted set (`BeetleViewProvider.ts:1475-1482`). -/
def freshGroup (filePath : String) : FileGroup :=
  { filePath := filePath
    comments := []
    criticalCount := 0
    highCount := 0
    issueCount := 0
    expanded := false }

/-- `addCommentToSession` (`BeetleViewProvider.ts:1441-1502`), acting on the
current session: replace an `initializing` data id, parse the severity,
append the comment to its file group (creating the group when missing) and
update the aggregate counters. -/
def addCommentToSession (session : Session) (dataId : String) (now : Nat)
    (commentData : RawComment) : Session :=
  let session :=
    if session.dataId = "initializing" then { session with dataId := dataId } else session
  let severity := extractSeverity commentData.content
  let comment := mkComment dataId now severity commentData
  let files :=
    if session.files.any (fun f => f.filePath == commentData.file_path) then
      updateFirst (fun f => f.filePath == commentData.file_path)
        (fun g => bumpCounts severity { g with comments := g.comments ++ [comment] })
        session.files
    else
      session.files ++ [bumpCounts severity
        { freshGroup commentData.file_path with comments := [comment] }]
  { session with files := files, totalComments := session.totalComments + 1 }

/-! ## Content hashing (`calculateFileHash`, `BeetleViewProvider.ts:1536-1541`)

The guard `if (!content || content.trim() === '')` holds exactly when every
character of the content is whitespace (the empty string is falsy, and a
string trims to `""` iff it is all whitespace).  The SHA-256 hex digest is
an external capability, passed as the function `sha256hex`. -/

def calculateFileHash (sha256hex : String → String) (content : String) : String :=
  if content.data.all Char.isWhitespace then "" else sha256hex content

/-! ## Change-set resolution (`handleTriggerReview`, `BeetleViewProvider.ts:539-716`) -/

/-- One entry of the host Git extension's change lists
(`workingTreeChanges` / `indexChanges`): a workspace-relative path and the
numeric VS Code git status. -/
structure ChangeEntry where
  path : String
  statusCode : Nat
deriving DecidableEq

/-- One element of the deduplicated file list submitted to the review
service (`BeetleViewProvider.ts:640-647`). -/
structure SubmissionEntry where
  filename : String
  status : String
  additions : Nat
  deletions : Nat
  patch : String
  lastReviewedContent : String
deriving DecidableEq

/-- External capabilities consumed by the resolution step: the workspace
file read (`fs.promises.readFile`, yielding `""` on failure), the SHA-256
digest, `git diff --no-index` between two content snapshots (via
`getIncrementalDiff`, which returns `""` on a real error), and
`git diff HEAD -- path`. -/
structure GitEnv where
  readFile : String → String
  sha256hex : String → String
  incrementalDiff : String → String → String → String
  gitDiffHead : String → String

/-- `mapGitStatus` (`BeetleViewProvider.ts:1881-1894`). -/
def mapGitStatus (status : Nat) : String :=
  if status = 2 || status = 7 then "added"
  else if status = 3 || status = 6 then "deleted"
  else "modified"

/-- Split a character list at newlines, the line structure that the
multiline regexes `/^\+/gm` and its minus-sign counterpart count over. -/
def splitLines : List Char → List (List Char)
  | [] => [[]]
  | c :: cs =>
    if c = '\n' then [] :: splitLines cs
    else
      match splitLines cs with
      | [] => [[c]]
      | l :: ls => (c :: l) :: ls

/-- `(patch.match(/^X/gm) || []).length`: the number of lines of the patch
starting with the character `X`. -/
def countLineStartsWith (ch : Char) (patch : String) : Nat :=
  ((splitLines patch.data).filter (fun l => l.head? = some ch)).length

/-- The most-recent-session search of `BeetleViewProvider.ts:588-597`:
walk the session list in order; in each session, `find` the first file
record with the wanted path; accept it only if its `lastReviewedContent`
is truthy, otherwise keep searching the older sessions.  Returns the
recorded `(lastReviewedContent, lastReviewedHash)` pair. -/
def findLastReviewed (sessions : List Session) (filePath : String) :
    Option (String × String) :=
  match sessions with
  | [] => none
  | session :: rest =>
    match session.files.find? (fun f => f.filePath == filePath) with
    | some file =>
      if file.lastReviewedContent ≠ "" then some (file.lastReviewedContent, file.lastReviewedHash)
      else findLastReviewed rest filePath
    | none => findLastReviewed rest filePath

/-- Outcome of the per-file mapper of `handleTriggerReview`
(`BeetleViewProvider.ts:572-648`).  The two `return null` sites are kept
distinct, matching their distinct log messages ("hash match" at line 605,
"no incremental changes" at line 618); the third `return null` (a thrown
git subprocess error, line 633) cannot occur here because the external
capabilities are modelled as total functions. -/
inductive FileOutcome where
  | skipHashMatch
  | skipEmptyIncremental
  | emit (e : SubmissionEntry)
deriving DecidableEq

/-- Per-file resolution (`BeetleViewProvider.ts:572-648`): look up the most
recent reviewed record, skip on a hash match, otherwise compute an
incremental diff (skipping when it is empty) or fall back to the
first-time-review patch, and estimate additions/deletions from the patch
text.  `Math.max(0, n - 1)` is truncated `Nat` subtraction. -/
def resolveFile (env : GitEnv) (sessions : List Session) (change : ChangeEntry) :
    FileOutcome :=
  let filePath := change.path
  let status := mapGitStatus change.statusCode
  let currentContent := env.readFile filePath
  let found := findLastReviewed sessions filePath
  let lastReviewedContent := match found with | some (c, _) => c | none => ""
  let lastReviewedHash := match found with | some (_, h) => h | none => ""
  let currentContentHash := calculateFileHash env.sha256hex currentContent
  if lastReviewedHash ≠ "" && currentContentHash == lastReviewedHash then
    .skipHashMatch
  else if lastReviewedContent ≠ "" && currentContent ≠ "" then
    let patch := env.incrementalDiff lastReviewedContent currentContent filePath
    if patch.data.all Char.isWhitespace then .skipEmptyIncremental
    else .emit
      { filename := filePath
        status := status
        additions := countLineStartsWith '+' patch - 1
        deletions := countLineStartsWith '-' patch - 1
        patch := patch
        lastReviewedContent := currentContent }
  else
    let patch := if change.statusCode = 7 then currentContent else env.gitDiffHead filePath
    .emit
      { filename := filePath
        status := status
        additions := countLineStartsWith '+' patch - 1
        deletions := countLineStartsWith '-' patch - 1
        patch := patch
        lastReviewedContent := currentContent }

/-- The non-null submission entry of an outcome. -/
def FileOutcome.entry? : FileOutcome → Option SubmissionEntry
  | .emit e => some e
  | _ => none

/-! ### Deduplication and exclusion (`BeetleViewProvider.ts:650-664`) -/

/-- The index-based dedup of `BeetleViewProvider.ts:653-655`,
`filter((f, index, self) => index === self.findIndex(ff => ff.filename === f.filename))`,
written as a recursion over the list carrying the running index: the
element at index `i` survives iff the first element of the whole list with
its filename sits at index `i`. -/
def dedupFilterAux (orig : List SubmissionEntry) (i : Nat) :
    List SubmissionEntry → List SubmissionEntry
  | [] => []
  | f :: rest =>
    if orig.findIdx (fun ff => ff.filename == f.filename) = i then
      f :: dedupFilterAux orig (i + 1) rest
    else
      dedupFilterAux orig (i + 1) rest

/-- Deduplicate by filename, keeping the occurrence at the `findIndex`
position (the first one). -/
def dedupByFilename (l : List SubmissionEntry) : List SubmissionEntry :=
  dedupFilterAux l 0 l

/-- `EXCLUDED_EXTENSIONS` (`BeetleViewProvider.ts:17-35`). -/
def EXCLUDED_EXTENSIONS : List String :=
  [".png", ".jpg", ".jpeg", ".gif", ".svg", ".ico", ".webp", ".bmp", ".tiff", ".tif",
   ".mp4", ".mov", ".avi", ".mkv", ".webm", ".flv", ".wmv", ".m4v",
   ".mp3", ".wav", ".ogg", ".flac", ".aac", ".m4a",
   ".pdf", ".zip", ".tar", ".gz", ".rar", ".7z",
   ".md", ".mdx", ".markdown",
   ".ttf", ".otf", ".woff", ".woff2", ".eot",
   ".sqlite", ".db", ".lock", ".bin", ".exe", ".dll", ".so", ".dylib",
   ".psd", ".ai", ".sketch", ".fig", ".xd"]

/-- Node's `path.extname`: the part of the last path segment from its last
`.` to the end; `""` when the segment has no dot, when its only dot is the
leading character (dotfiles), or for the special segments `.` and `..`. -/
def extname (filePath : String) : String :=
  let b := (filePath.data.reverse.takeWhile (fun c => c ≠ '/')).reverse
  if b = ['.'] || b = ['.', '.'] then ""
  else
    let afterDot := b.reverse.takeWhile (fun c => c ≠ '.')
    if afterDot.length = b.length then ""
    else if afterDot.length + 1 = b.length && b.head? = some '.' then ""
    else String.mk ('.' :: afterDot.reverse)

/-- `shouldExcludeFile` (`BeetleViewProvider.ts:1899-1902`):
`EXCLUDED_EXTENSIONS.includes(path.extname(filePath).toLowerCase())`. -/
def shouldExcludeFile (filePath : String) : Bool :=
  EXCLUDED_EXTENSIONS.contains (String.mk ((extname filePath).data.map Char.toLower))

/-- The mapped-and-null-filtered file data of `BeetleViewProvider.ts:569-652`
(the `filesData` array with its `null` entries removed), before
deduplication. -/
def preDedup (env : GitEnv) (sessions : List Session) (changes : List ChangeEntry) :
    List SubmissionEntry :=
  (changes.map (resolveFile env sessions)).filterMap FileOutcome.entry?

/-- The change-set resolution of `handleTriggerReview`
(`BeetleViewProvider.ts:569-664`): per-file resolution, null removal,
dedup by filename, exclusion of binary/media file types, and the optional
intersection with an explicit incremental-review file list
(`if (filePaths && filePaths.length > 0)`). -/
def resolveChangeSet (env : GitEnv) (sessions : List Session)
    (changes : List ChangeEntry) (filePaths : Option (List String)) :
    List SubmissionEntry :=
  let uniqueFilesData :=
    ((dedupByFilename (preDedup env sessions changes)).filter
      (fun f => !shouldExcludeFile f.filename))
  match filePaths with
  | some ps => if ps.length > 0 then uniqueFilesData.filter (fun f => ps.contains f.filename) else uniqueFilesData
  | none => uniqueFilesData

/-- Session initialisation after a successful submission
(`BeetleViewProvider.ts:754-783`): status `running`, zero counts, one file
group per submitted entry, with `lastReviewedHash` the hash of that file's
current content (`calculateFileHash(file.lastReviewedContent || '')`). -/
def initSession (sha256hex : String → String) (dataId title branchName : String)
    (now : Nat) (uniqueFilesData : List SubmissionEntry) : Session :=
  { dataId := dataId
    title := title
    branchFrom := branchName
    branchTo := "main"
    status := "running"
    totalComments := 0
    resolvedComments := 0
    files := uniqueFilesData.map (fun file =>
      { filePath := file.filename
        comments := []
        criticalCount := 0
        highCount := 0
        issueCount := 0
        expanded := false
        lastReviewedHash := calculateFileHash sha256hex file.lastReviewedContent
        lastReviewedPatch := file.patch
        lastReviewedContent := file.lastReviewedContent
        reviewedAt := now })
    createdAt := now }

/-! ## Resolution marking
(`handleMarkResolvedFromWebview`, `BeetleViewProvider.ts:492-534`, and the
identical session-update logic of `handleMarkResolved`,
`BeetleViewProvider.ts:1754-1786`)

The code iterates the current session's file groups in order; in the first
group whose `comments` array contains an entry with the given `file_path`
and `line_start`, it sets `resolved = true` on the first such comment,
increments `resolvedComments`, and breaks. -/

def commentMatches (filePath : String) (lineStart : Int) (c : Comment) : Bool :=
  c.file_path == filePath && c.line_start == lineStart

/-- The session mutation shared by both resolution-marking handlers. -/
def markResolvedInSession (filePath : String) (lineStart : Int) (session : Session) :
    Session :=
  let groupHasMatch : FileGroup → Bool :=
    fun g => g.comments.any (commentMatches filePath lineStart)
  let markInGroup : FileGroup → FileGroup :=
    fun g =>
      let comments := updateFirst (commentMatches filePath lineStart)
        (fun c => { c with resolved := true }) g.comments
      { g with comments := comments }
  if session.files.any groupHasMatch then
    { session with
      files := updateFirst groupHasMatch markInGroup session.files,
      resolvedComments := session.resolvedComments + 1 }
  else session

/-! ## Session store operations (`BeetleViewProvider.ts`) -/

/-- `handleDeleteSession` (`BeetleViewProvider.ts:344-380`): `findIndex` by
`dataId`, `splice` that index out, and when the deleted session was the
current one, promote the new front of the list (`sessions[0] || null`);
`currentReviewId` follows `this.currentSession?.dataId || null`, where an
empty-string id is falsy. -/
def handleDeleteSession (sessionId : String) (st : ProviderState) : ProviderState :=
  match st.sessions.findIdx? (fun s => s.dataId == sessionId) with
  | none => st
  | some sessionIndex =>
    let sessions := st.sessions.eraseIdx sessionIndex
    let currentDeleted :=
      match st.currentSession with
      | some c => c.dataId == sessionId
      | none => false
    if currentDeleted then
      { sessions := sessions
        currentSession := sessions.head?
        currentReviewId := match sessions.head? with
          | some s => if s.dataId = "" then none else some s.dataId
          | none => none }
    else
      { st with sessions := sessions }

/-- `handleStopReview` (`BeetleViewProvider.ts:385-440`): only a session
found by `dataId` whose status is `running` is acted on; the
`stopReview` HTTP call is external, its success is the `apiSuccess`
parameter (on `null` result the handler returns before mutating anything).
On success the found session's status becomes `interrupted` and, when it
was the current session, the current pointer and review id are cleared to
`null` (no other session is promoted). -/
def handleStopReview (apiSuccess : Bool) (sessionId : String) (st : ProviderState) :
    ProviderState :=
  match st.sessions.find? (fun s => s.dataId == sessionId) with
  | none => st
  | some session =>
    if session.status ≠ "running" then st
    else if !apiSuccess then st
    else
      let sessions := updateFirst (fun s => s.dataId == sessionId)
        (fun s => { s with status := "interrupted" }) st.sessions
      let currentStopped :=
        match st.currentSession with
        | some c => c.dataId == sessionId
        | none => false
      if currentStopped then
        { sessions := sessions, currentSession := none, currentReviewId := none }
      else
        { st with sessions := sessions }

/-! ## Persistence (`saveCachedSessions` / `restoreCachedSessions`,
`BeetleViewProvider.ts:1693-1730`)

The workspace `Memento` is modelled as the value stored under the single
key `beetleSessions`: `update(key, v)` stores the value, `update(key,
null)` clears it, `get(key, null)` reads it back.  (JSON encoding by the
host is an external concern; the code hands the session array to the host
and receives it back.) -/

/-- The workspace storage: the value under the `beetleSessions` key. -/
structure WorkspaceCache where
  beetleSessions : Option (List Session)
deriving DecidableEq

/-- `saveCachedSessions` (`BeetleViewProvider.ts:1693-1701`). -/
def saveCachedSessions (st : ProviderState) (_cache : WorkspaceCache) : WorkspaceCache :=
  if st.sessions.length > 0 then { beetleSessions := some st.sessions }
  else { beetleSessions := none }

/-- `restoreCachedSessions` (`BeetleViewProvider.ts:1706-1730`): when a
non-empty saved array exists, it becomes the session list and its first
element becomes the current session; otherwise nothing changes.
(`currentReviewId` is not touched by this handler.) -/
def restoreCachedSessions (st : ProviderState) (cache : WorkspaceCache) : ProviderState :=
  match cache.beetleSessions with
  | some savedSessions =>
    if savedSessions.length > 0 then
      { st with sessions := savedSessions, currentSession := savedSessions.head? }
    else st
  | none => st

/-! ## Polling coordinator (`startCommentPolling`,
`BeetleService.ts:168-269`)

Each tick of the `poll` closure increments `pollCount`, fetches the
analysis status and the new comments (a single external interaction that
either succeeds with both or throws), delivers every fetched comment to
`onComment`, stops with one `onComplete` invocation on a terminal status
(`completed`/`failed`) or on the `MAX_POLLS` cap, and on a thrown fetch
error stops (with `onComplete`) iff `pollCount >= 5`.  Ticks are modelled
as a stream indexed by the value of `pollCount` during the tick; the loop
is run with fuel, `MAX_POLLS` being enough for every reachable call. -/

/-- `MAX_POLLS` (`BeetleService.ts:178`). -/
def MAX_POLLS : Nat := 1000

/-- The outcome of one tick's fetches: both `GET`s succeed, or one throws. -/
inductive TickResult where
  | success (analysisStatus : String) (comments : List RawComment)
  | fetchError
deriving DecidableEq

/-- Observable totals of a polling run: ticks executed, `onComplete`
invocations, comments delivered to `onComment`. -/
structure PollRunStats where
  polls : Nat
  completions : Nat
  delivered : Nat
deriving DecidableEq

/-- The polling loop (`BeetleService.ts:180-267`), from a given prior
`pollCount`.  `fuel` only bounds the recursion; every run below starts
with `fuel = MAX_POLLS`, which the termination bounds of the loop never
exhaust. -/
def pollLoop (ticks : Nat → TickResult) : Nat → Nat → PollRunStats
  | 0, _ => { polls := 0, completions := 0, delivered := 0 }
  | fuel + 1, pollCount =>
    let n := pollCount + 1
    match ticks n with
    | .success analysisStatus comments =>
      if analysisStatus == "completed" || analysisStatus == "failed" then
        { polls := 1, completions := 1, delivered := comments.length }
      else if n ≥ MAX_POLLS then
        { polls := 1, completions := 1, delivered := comments.length }
      else
        let r := pollLoop ticks fuel n
        { polls := r.polls + 1, completions := r.completions,
          delivered := r.delivered + comments.length }
    | .fetchError =>
      if n ≥ 5 then
        { polls := 1, completions := 1, delivered := 0 }
      else
        let r := pollLoop ticks fuel n
        { polls := r.polls + 1, completions := r.completions, delivered := r.delivered }

/-- `startCommentPolling`'s whole run for one job: the loop from
`pollCount = 0`. -/
def startCommentPolling (ticks : Nat → TickResult) : PollRunStats :=
  pollLoop ticks MAX_POLLS 0

/-- The completion handler installed by `handleTriggerReview`
(`BeetleViewProvider.ts:832-854`): after polling stops it fetches the
analysis status once more and writes it into the session's `status`
field.  This is the only session-status write tied to polling; the loop
itself never touches the session. -/
def onPollingComplete (session : Session) (analysisStatus : String) : Session :=
  { session with status := analysisStatus }

/-! ## Proof-side definitions and concrete instances used by the theorems -/

/-- Total number of comments across the file groups of a session. -/
def sumComments (files : List FileGroup) : Nat :=
  (files.map (fun f => f.comments.length)).sum

/-- The invariant of claim C2: `totalComments` equals the sum of the
per-group comment counts, and every group's `issueCount` equals
`criticalCount + highCount`. -/
def countsInvariant (s : Session) : Prop :=
  s.totalComments = sumComments s.files ∧
  ∀ f ∈ s.files, f.issueCount = f.criticalCount + f.highCount

/-- One ingest call: the `(dataId, Date.now(), rawComment)` triple of a
single `addCommentToSession` invocation. -/
def ingestCall (s : Session) (call : String × Nat × RawComment) : Session :=
  addCommentToSession s call.1 call.2.1 call.2.2

/-- A session as it stands after one comment arrived: one file group with
one unresolved `High` comment, `totalComments = 1`, `resolvedComments = 0`. -/
def c3Session : Session :=
  { dataId := "data-1"
    title := "review 1"
    branchFrom := "feature"
    branchTo := "main"
    status := "completed"
    totalComments := 1
    resolvedComments := 0
    files := [
      { filePath := "a.ts"
        comments := [
          { id := "data-1-10"
            file_path := "a.ts"
            line_start := 3
            line_end := 3
            severity := "High"
            title := "issue"
            confidence := "3/5"
            content := "**Severity**: High"
            created_at := 10 }]
        criticalCount := 0
        highCount := 1
        issueCount := 1
        expanded := false }] }

/-- A one-session store with a nested comment, for the C8 witness. -/
def c8State : ProviderState :=
  { sessions := [
      { dataId := "data-8"
        title := "review 8"
        branchFrom := "feature"
        branchTo := "main"
        status := "completed"
        totalComments := 1
        resolvedComments := 0
        files := [
          { filePath := "b.ts"
            comments := [
              { id := "data-8-1"
                file_path := "b.ts"
                line_start := 1
                line_end := 2
                severity := "Low"
                title := "t"
                confidence := "3/5"
                content := "c"
                created_at := 1 }]
            criticalCount := 0
            highCount := 0
            issueCount := 0
            expanded := true }] }]
    currentSession := none
    currentReviewId := none }

/-- A tick after which the loop schedules another poll: a successful fetch
with a non-terminal status below the tick cap, or a fetch error on a tick
with `pollCount < 5`. -/
def tickContinues (ticks : Nat → TickResult) (j : Nat) : Prop :=
  match ticks j with
  | .success st _ => st ≠ "completed" ∧ st ≠ "failed" ∧ j < MAX_POLLS
  | .fetchError => j < 5

/-- A tick at which the loop stops and invokes `onComplete`: a terminal
status, the tick cap, or a fetch error with `pollCount >= 5`. -/
def tickStops (ticks : Nat → TickResult) (j : Nat) : Prop :=
  match ticks j with
  | .success st _ => st = "completed" ∨ st = "failed" ∨ MAX_POLLS ≤ j
  | .fetchError => 5 ≤ j

/-- A service that answers `running` on every tick except the fifth, where
the fetch throws once. -/
def c6Ticks (n : Nat) : TickResult :=
  if n = 5 then .fetchError else .success "running" []

/-- The environment for the C1 counterexample: every read returns `"two"`,
the digest of a string `s` is `"#" ++ s`, diffing distinct contents yields
a one-line patch. -/
def c1Env : GitEnv :=
  { readFile := fun _ => "two"
    sha256hex := fun s => "#" ++ s
    incrementalDiff := fun oldC newC _ => if oldC = newC then "" else "@@ changed @@"
    gitDiffHead := fun _ => "@@ head @@" }

/-- Most recent session: reviewed `f.ts` when its content was `"one"`. -/
def c1SessionA : Session :=
  { dataId := "A"
    title := "review A"
    branchFrom := "feature"
    branchTo := "main"
    status := "completed"
    totalComments := 0
    resolvedComments := 0
    files := [
      { filePath := "f.ts"
        comments := []
        criticalCount := 0
        highCount := 0
        issueCount := 0
        expanded := false
        lastReviewedHash := "#one"
        lastReviewedContent := "one"
        lastReviewedPatch := ""
        reviewedAt := 1 }] }

/-- Older session: reviewed `f.ts` when its content was `"two"` — the hash
recorded here equals the hash of the *current* content. -/
def c1SessionB : Session :=
  { dataId := "B"
    title := "review B"
    branchFrom := "feature"
    branchTo := "main"
    status := "completed"
    totalComments := 0
    resolvedComments := 0
    files := [
      { filePath := "f.ts"
        comments := []
        criticalCount := 0
        highCount := 0
        issueCount := 0
        expanded := false
        lastReviewedHash := "#two"
        lastReviewedContent := "two"
        lastReviewedPatch := ""
        reviewedAt := 0 }] }

/-- Environment for the C7 counterexample: the same path appears once in
the working-tree change list (status 5, `modified`) and once in the index
change list (status 2, `added`). -/
def c7Env : GitEnv :=
  { readFile := fun _ => "x"
    sha256hex := fun s => "#" ++ s
    incrementalDiff := fun oldC newC _ => if oldC = newC then "" else "@@ changed @@"
    gitDiffHead := fun _ => "@@ head @@" }

/-! ## Theorems -/

/-! ### Generic lemmas about `updateFirst` -/

theorem updateFirst_mem {α : Type} (p : α → Bool) (f : α → α) :
    ∀ (l : List α) (y : α), y ∈ updateFirst p f l →
      y ∈ l ∨ ∃ x, x ∈ l ∧ p x = true ∧ y = f x := by
  intro l
  induction l with
  | nil => intro y hy; simp [updateFirst] at hy
  | cons x xs ih =>
    intro y hy
    simp only [updateFirst] at hy
    by_cases hx : p x
    · simp [hx] at hy
      rcases hy with hy | hy
      · exact Or.inr ⟨x, by simp, hx, hy⟩
      · exact Or.inl (by simp [hy])
    · simp [hx] at hy
      rcases hy with hy | hy
      · exact Or.inl (by simp [hy])
      · rcases ih y hy with h | ⟨z, hz, hpz, hyz⟩
        · exact Or.inl (by simp [h])
        · exact Or.inr ⟨z, by simp [hz], hpz, hyz⟩

theorem updateFirst_sum_map {α : Type} (p : α → Bool) (f : α → α) (m : α → Nat)
    (hf : ∀ x, p x = true → m (f x) = m x + 1) :
    ∀ l : List α, l.any p = true →
      ((updateFirst p f l).map m).sum = (l.map m).sum + 1 := by
  intro l
  induction l with
  | nil => intro h; simp at h
  | cons x xs ih =>
    intro h
    simp only [updateFirst]
    by_cases hx : p x
    · simp [hx, hf x hx]; omega
    · have hxs : xs.any p = true := by simpa [hx] using h
      simp [hx, ih hxs]; omega

theorem updateFirst_map_key {α β : Type} (p : α → Bool) (f : α → α) (m : α → β)
    (hf : ∀ x, p x = true → m (f x) = m x) :
    ∀ l : List α, (updateFirst p f l).map m = l.map m := by
  intro l
  induction l with
  | nil => rfl
  | cons x xs ih =>
    simp only [updateFirst]
    by_cases hx : p x
    · simp [hx, hf x hx]
    · simp [hx, ih]

/-! ### C2: comment count invariant -/

theorem bumpCounts_comments (severity : String) (g : FileGroup) :
    (bumpCounts severity g).comments = g.comments := by
  unfold bumpCounts
  by_cases h1 : severity = "Critical" <;> by_cases h2 : severity = "High" <;> simp [h1, h2]

theorem bumpCounts_issue (severity : String) (g : FileGroup)
    (h : g.issueCount = g.criticalCount + g.highCount) :
    (bumpCounts severity g).issueCount =
      (bumpCounts severity g).criticalCount + (bumpCounts severity g).highCount := by
  unfold bumpCounts
  by_cases h1 : severity = "Critical" <;> by_cases h2 : severity = "High" <;>
    simp [h1, h2] <;> omega

theorem addCommentToSession_invariant (s : Session) (dataId : String) (now : Nat)
    (commentData : RawComment) (h : countsInvariant s) :
    countsInvariant (addCommentToSession s dataId now commentData) := by
  obtain ⟨hsum, hiss⟩ := h
  unfold addCommentToSession
  set s' := if s.dataId = "initializing" then { s with dataId := dataId } else s with hs'
  have hs'files : s'.files = s.files := by
    rw [hs']; split <;> rfl
  have hs'total : s'.totalComments = s.totalComments := by
    rw [hs']; split <;> rfl
  set sev := extractSeverity commentData.content
  set cmt := mkComment dataId now sev commentData
  by_cases hany : s.files.any (fun f => f.filePath == commentData.file_path)
  · constructor
    · simp only [hs'files, hs'total, hany, if_pos]
      rw [sumComments,
        updateFirst_sum_map _ _ _ (fun g _ => by simp [bumpCounts_comments]) s.files hany]
      simp [hsum, sumComments]
    · simp only [hs'files, hany, if_pos]
      intro f hf
      rcases updateFirst_mem _ _ s.files f hf with hmem | ⟨g, hg, _, hfeq⟩
      · exact hiss f hmem
      · subst hfeq
        exact bumpCounts_issue _ _ (hiss g hg)
  · constructor
    · simp only [hs'files, hs'total, hany, if_neg, Bool.false_eq_true, not_false_iff]
      simp [sumComments, hsum, bumpCounts_comments, freshGroup]
    · simp only [hs'files, hany, if_neg, Bool.false_eq_true, not_false_iff]
      intro f hf
      simp only [List.mem_append, List.mem_singleton] at hf
      rcases hf with hf | hf
      · exact hiss f hf
      · subst hf
        exact bumpCounts_issue _ _ (by simp [freshGroup])

theorem initSession_invariant (sha256hex : String → String)
    (dataId title branchName : String) (now : Nat)
    (uniqueFilesData : List SubmissionEntry) :
    countsInvariant (initSession sha256hex dataId title branchName now uniqueFilesData) := by
  constructor
  · simp only [initSession, sumComments]
    induction uniqueFilesData with
    | nil => rfl
    | cons e es ih => simpa using ih
  · intro f hf
    simp only [initSession, List.mem_map] at hf
    obtain ⟨e, _, he⟩ := hf
    subst he
    rfl

/-- C2.  After any sequence of `addCommentToSession` calls on a freshly
created session (as built by `handleTriggerReview`, with zero counts), the
session's `totalComments` equals the sum over all file groups of the
length of that group's comments array, and every file group's `issueCount`
equals its `criticalCount` plus its `highCount`. -/
theorem claim_c2_comment_count_invariant (sha256hex : String → String)
    (dataId title branchName : String) (now : Nat)
    (uniqueFilesData : List SubmissionEntry)
    (calls : List (String × Nat × RawComment)) :
    countsInvariant
      (calls.foldl ingestCall
        (initSession sha256hex dataId title branchName now uniqueFilesData)) := by
  have main : ∀ (cs : List (String × Nat × RawComment)) (s : Session),
      countsInvariant s → countsInvariant (cs.foldl ingestCall s) := by
    intro cs
    induction cs with
    | nil => intro s hs; exact hs
    | cons c cs ih =>
      intro s hs
      exact ih _ (addCommentToSession_invariant s c.1 c.2.1 c.2.2 hs)
  exact main calls _ (initSession_invariant sha256hex dataId title branchName now uniqueFilesData)

/-! ### C3: resolution marking is **not** idempotent in the code -/

/-- C3, evaluated at the failing input.  The resolution-marking handlers
(`handleMarkResolvedFromWebview` / `handleMarkResolved`) locate the
comment by file path and line only, without checking its `resolved` flag:
marking the same comment twice increments `resolvedComments` to 2 — not 1
as the claim (and the spec's idempotence requirement) demands — even
though the session still contains exactly one resolved comment. -/
theorem claim_c3_double_marking_overcounts :
    (markResolvedInSession "a.ts" 3 c3Session).resolvedComments = 1 ∧
    (markResolvedInSession "a.ts" 3
      (markResolvedInSession "a.ts" 3 c3Session)).resolvedComments = 2 ∧
    sumComments (markResolvedInSession "a.ts" 3
      (markResolvedInSession "a.ts" 3 c3Session)).files = 1 := by
  decide

/-! ### C8: round-trip persistence -/

/-- C8.  For a provider whose session list is non-empty, restoring (into
any provider state, against the cache just written) after persisting
reinstates the identical session array — field for field, nested comment
arrays included, since the very same value is stored and read back — and
the first restored session becomes the current session. -/
theorem claim_c8_persistence_roundtrip (st st2 : ProviderState)
    (cache : WorkspaceCache) (h : st.sessions ≠ []) :
    (restoreCachedSessions st2 (saveCachedSessions st cache)).sessions = st.sessions ∧
    (restoreCachedSessions st2 (saveCachedSessions st cache)).currentSession =
      st.sessions.head? := by
  have hlen : st.sessions.length > 0 := List.length_pos.mpr h
  unfold saveCachedSessions restoreCachedSessions
  rw [if_pos hlen]
  simp [hlen]

/-- Witness for C8 at a concrete store holding one session with a nested
comment array. -/
theorem claim_c8_persistence_roundtrip_witness :
    c8State.sessions ≠ [] ∧
    (restoreCachedSessions
        { sessions := [], currentSession := none, currentReviewId := none }
        (saveCachedSessions c8State { beetleSessions := none })).sessions =
      c8State.sessions := by
  refine ⟨by decide, ?_⟩
  exact (claim_c8_persistence_roundtrip c8State
    { sessions := [], currentSession := none, currentReviewId := none }
    { beetleSessions := none } (by decide)).1

/-! ### C9: session deletion -/

theorem eraseIdx_findIdx_mem_iff {α : Type} (key : α → String) (sid : String) :
    ∀ (l : List α) (i : Nat), (l.map key).Nodup →
      List.findIdx? (fun s => key s == sid) l = some i →
      ∀ x, x ∈ l.eraseIdx i ↔ (x ∈ l ∧ key x ≠ sid) := by
  intro l
  induction l with
  | nil => intro i _ h; simp [List.findIdx?_nil] at h
  | cons a as ih =>
    intro i hnodup hfind x
    rw [List.findIdx?_cons] at hfind
    simp only [List.map_cons, List.nodup_cons] at hnodup
    obtain ⟨hhead, htail⟩ := hnodup
    by_cases ha : key a == sid
    · rw [if_pos ha] at hfind
      injection hfind with hi
      subst hi
      have hkeya : key a = sid := by simpa using ha
      rw [List.eraseIdx_cons_zero]
      constructor
      · intro hx
        refine ⟨List.mem_cons_of_mem _ hx, ?_⟩
        intro hxk
        exact hhead (by
          rw [← hkeya] at hxk
          exact hxk ▸ List.mem_map_of_mem key hx)
      · rintro ⟨hx, hxk⟩
        rcases List.mem_cons.mp hx with rfl | hx
        · exact absurd hkeya hxk
        · exact hx
    · rw [if_neg ha, List.findIdx?_succ] at hfind
      obtain ⟨j, hj, rfl⟩ := Option.map_eq_some'.mp hfind
      have hkeya : key a ≠ sid := by simpa using ha
      rw [List.eraseIdx_cons_succ]
      constructor
      · intro hx
        rcases List.mem_cons.mp hx with rfl | hx
        · exact ⟨List.mem_cons_self _ _, hkeya⟩
        · have := (ih j htail hj x).mp hx
          exact ⟨List.mem_cons_of_mem _ this.1, this.2⟩
      · rintro ⟨hx, hxk⟩
        rcases List.mem_cons.mp hx with rfl | hx
        · exact List.mem_cons_self _ _
        · exact List.mem_cons_of_mem _ ((ih j htail hj x).mpr ⟨hx, hxk⟩)

/-- C9.  Deleting a session by `dataId` removes exactly that session:
membership in the surviving list is "was there before and does not carry
the deleted id".  If the deleted session was current, the current pointer
becomes the new front of the remaining list (or stays what it was when the
deleted session was not current, or `none` when there was no current
session), and after every delete the current pointer, if non-null, points
to a session present in the collection. -/
theorem claim_c9_delete_session (sid : String) (st : ProviderState)
    (hnodup : (st.sessions.map Session.dataId).Nodup)
    (hvalid : ∀ c, st.currentSession = some c → c ∈ st.sessions) :
    (∀ s, s ∈ (handleDeleteSession sid st).sessions ↔
        (s ∈ st.sessions ∧ s.dataId ≠ sid)) ∧
    (∀ c, st.currentSession = some c → c.dataId = sid →
        (handleDeleteSession sid st).currentSession =
          (handleDeleteSession sid st).sessions.head?) ∧
    (∀ c, st.currentSession = some c → c.dataId ≠ sid →
        (handleDeleteSession sid st).currentSession = some c) ∧
    (st.currentSession = none → (handleDeleteSession sid st).currentSession = none) ∧
    (∀ c, (handleDeleteSession sid st).currentSession = some c →
        c ∈ (handleDeleteSession sid st).sessions) := by
  unfold handleDeleteSession
  cases hfind : List.findIdx? (fun s => s.dataId == sid) st.sessions with
  | none =>
    have hall : ∀ s ∈ st.sessions, s.dataId ≠ sid := by
      intro s hs
      have := List.findIdx?_eq_none_iff.mp hfind s hs
      simpa using this
    refine ⟨?_, ?_, ?_, ?_, ?_⟩
    · intro s
      exact ⟨fun hs => ⟨hs, hall s hs⟩, fun hs => hs.1⟩
    · intro c hc hcid
      exact absurd hcid (hall c (hvalid c hc))
    · intro c hc _
      exact hc
    · intro hc
      exact hc
    · intro c hc
      exact hvalid c hc
  | some i =>
    have hmem := eraseIdx_findIdx_mem_iff Session.dataId sid st.sessions i hnodup hfind
    cases hcur : st.currentSession with
    | none =>
      simp only [hcur]
      refine ⟨hmem, ?_, ?_, ?_, ?_⟩
      · intro c hc; cases hc
      · intro c hc; cases hc
      · intro _; rfl
      · intro c hc; cases hc
    | some cur =>
      simp only [hcur]
      by_cases hcid : cur.dataId == sid
      · rw [if_pos hcid]
        refine ⟨hmem, ?_, ?_, ?_, ?_⟩
        · intro c _ _; rfl
        · intro c hc hne
          injection hc with hc
          subst hc
          exact absurd (by simpa using hcid) hne
        · intro hc; cases hc
        · intro c hc
          simp only at hc
          rcases List.head?_eq_some_iff.mp hc with ⟨ys, hys⟩
          rw [hys]
          exact List.mem_cons_self _ _
      · rw [if_neg hcid]
        have hcurne : cur.dataId ≠ sid := by simpa using hcid
        refine ⟨hmem, ?_, ?_, ?_, ?_⟩
        · intro c hc hcidq
          injection hc with hc
          subst hc
          exact absurd hcidq hcurne
        · intro c hc _
          exact hc
        · intro hc; cases hc
        · intro c hc
          simp only at hc
          have hc2 : c = cur := by injection hc with h; exact h.symm
          subst hc2
          exact (hmem c).mpr ⟨hvalid c hcur, hcurne⟩

/-- Witness for C9: deleting the current session of a concrete two-session
store promotes the remaining session. -/
theorem claim_c9_delete_session_witness :
    (([c3Session, { c3Session with dataId := "data-2" }].map Session.dataId).Nodup ∧
      (∀ c, (some c3Session : Option Session) = some c →
        c ∈ [c3Session, { c3Session with dataId := "data-2" }])) ∧
    (∀ s, s ∈ (handleDeleteSession "data-1"
        { sessions := [c3Session, { c3Session with dataId := "data-2" }],
          currentSession := some c3Session,
          currentReviewId := some "data-1" }).sessions ↔
      (s ∈ [c3Session, { c3Session with dataId := "data-2" }] ∧ s.dataId ≠ "data-1")) := by
  have h1 : ([c3Session, { c3Session with dataId := "data-2" }].map Session.dataId).Nodup := by
    decide
  have h2 : ∀ c, (some c3Session : Option Session) = some c →
      c ∈ [c3Session, { c3Session with dataId := "data-2" }] := by
    intro c hc
    injection hc with hc
    subst hc
    exact List.mem_cons_self _ _
  exact ⟨⟨h1, h2⟩,
    (claim_c9_delete_session "data-1"
      { sessions := [c3Session, { c3Session with dataId := "data-2" }],
        currentSession := some c3Session,
        currentReviewId := some "data-1" } h1 h2).1⟩

/-! ### C10: stopping a review -/

theorem updateFirst_key_mem {α : Type} (key : α → String) (sid : String) (f : α → α)
    (hf : ∀ x, key (f x) = key x) :
    ∀ l : List α, (l.map key).Nodup →
      ∀ t ∈ updateFirst (fun x => key x == sid) f l,
        (key t = sid → ∃ x, x ∈ l ∧ key x = sid ∧ t = f x) ∧
        (key t ≠ sid → t ∈ l) := by
  intro l
  induction l with
  | nil => intro _ t ht; simp [updateFirst] at ht
  | cons a as ih =>
    intro hnodup t ht
    simp only [List.map_cons, List.nodup_cons] at hnodup
    obtain ⟨hhead, htail⟩ := hnodup
    simp only [updateFirst] at ht
    by_cases ha : key a == sid
    · rw [if_pos ha] at ht
      have hkeya : key a = sid := by simpa using ha
      rcases List.mem_cons.mp ht with rfl | ht
      · constructor
        · intro _; exact ⟨a, List.mem_cons_self _ _, hkeya, rfl⟩
        · intro hne; exact absurd (by rw [hf a, hkeya]) hne
      · constructor
        · intro htk
          have hin : key a ∈ List.map key as := by
            rw [hkeya, ← htk]
            exact List.mem_map_of_mem key ht
          exact absurd hin hhead
        · intro _; exact List.mem_cons_of_mem _ ht
    · rw [if_neg ha] at ht
      have hkeya : key a ≠ sid := by simpa using ha
      rcases List.mem_cons.mp ht with rfl | ht
      · exact ⟨fun htk => absurd htk hkeya, fun _ => List.mem_cons_self _ _⟩
      · obtain ⟨h1, h2⟩ := ih htail t ht
        constructor
        · intro htk
          obtain ⟨x, hx, hxk, hxt⟩ := h1 htk
          exact ⟨x, List.mem_cons_of_mem _ hx, hxk, hxt⟩
        · intro hne; exact List.mem_cons_of_mem _ (h2 hne)

/-- C10.  `handleStopReview` leaves the store unchanged unless the session
found by `dataId` has status `running` (and the stop API call succeeds);
on success the stopped session stays in the store (same `dataId` list)
with status `interrupted`, every other session is untouched, and if it
was the current session the current pointer is cleared to `null` — no
other session is promoted — while a different current session is kept. -/
theorem claim_c10_stop_review (apiSuccess : Bool) (sid : String) (st : ProviderState)
    (hnodup : (st.sessions.map Session.dataId).Nodup) :
    (st.sessions.find? (fun x => x.dataId == sid) = none →
        handleStopReview apiSuccess sid st = st) ∧
    (∀ s, st.sessions.find? (fun x => x.dataId == sid) = some s →
        s.status ≠ "running" → handleStopReview apiSuccess sid st = st) ∧
    (apiSuccess = false → handleStopReview apiSuccess sid st = st) ∧
    (∀ s, st.sessions.find? (fun x => x.dataId == sid) = some s →
        s.status = "running" → apiSuccess = true →
      ((handleStopReview apiSuccess sid st).sessions.map Session.dataId =
          st.sessions.map Session.dataId) ∧
      (∀ t ∈ (handleStopReview apiSuccess sid st).sessions,
          t.dataId = sid → t.status = "interrupted") ∧
      (∀ t ∈ (handleStopReview apiSuccess sid st).sessions,
          t.dataId ≠ sid → t ∈ st.sessions) ∧
      (∀ c, st.currentSession = some c → c.dataId = sid →
          (handleStopReview apiSuccess sid st).currentSession = none) ∧
      (∀ c, st.currentSession = some c → c.dataId ≠ sid →
          (handleStopReview apiSuccess sid st).currentSession = some c) ∧
      (st.currentSession = none →
          (handleStopReview apiSuccess sid st).currentSession = none)) := by
  refine ⟨?_, ?_, ?_, ?_⟩
  · intro hfind
    unfold handleStopReview
    rw [hfind]
  · intro s hfind hstatus
    unfold handleStopReview
    rw [hfind]
    simp [hstatus]
  · intro hapi
    unfold handleStopReview
    cases hfind : st.sessions.find? (fun x => x.dataId == sid) with
    | none => rfl
    | some s =>
      subst hapi
      by_cases hstatus : s.status = "running" <;> simp [hstatus]
  · intro s hfind hstatus hapi
    subst hapi
    have hkey : ∀ x : Session,
        Session.dataId ((fun t => { t with status := "interrupted" }) x) =
          Session.dataId x := fun _ => rfl
    have hbody : handleStopReview true sid st =
        (let sessions := updateFirst (fun x => x.dataId == sid)
          (fun t => { t with status := "interrupted" }) st.sessions
        let currentStopped :=
          match st.currentSession with
          | some c => c.dataId == sid
          | none => false
        if currentStopped then
          { sessions := sessions, currentSession := none, currentReviewId := none }
        else
          { st with sessions := sessions }) := by
      unfold handleStopReview
      rw [hfind]
      simp [hstatus]
    have hmems := updateFirst_key_mem Session.dataId sid
      (fun t => { t with status := "interrupted" }) hkey st.sessions hnodup
    refine ⟨?_, ?_, ?_, ?_, ?_, ?_⟩
    · rw [hbody]
      cases hcur : st.currentSession with
      | none =>
        simp only
        exact updateFirst_map_key _ _ _ (fun x _ => hkey x) st.sessions
      | some cur =>
        simp only
        by_cases hcid : cur.dataId == sid <;> simp [hcid] <;>
          exact updateFirst_map_key _ _ _ (fun x _ => hkey x) st.sessions
    · intro t ht htid
      rw [hbody] at ht
      have htmem : t ∈ updateFirst (fun x => x.dataId == sid)
          (fun t => { t with status := "interrupted" }) st.sessions := by
        cases hcur : st.currentSession with
        | none => simpa [hcur] using ht
        | some cur =>
          by_cases hcid : cur.dataId == sid
          · simpa [hcur, hcid] using ht
          · simpa [hcur, hcid] using ht
      obtain ⟨x, _, _, hxt⟩ := (hmems t htmem).1 htid
      rw [hxt]
    · intro t ht htid
      rw [hbody] at ht
      have htmem : t ∈ updateFirst (fun x => x.dataId == sid)
          (fun t => { t with status := "interrupted" }) st.sessions := by
        cases hcur : st.currentSession with
        | none => simpa [hcur] using ht
        | some cur =>
          by_cases hcid : cur.dataId == sid
          · simpa [hcur, hcid] using ht
          · simpa [hcur, hcid] using ht
      exact (hmems t htmem).2 htid
    · intro c hc hcid
      rw [hbody]
      simp [hc, hcid]
    · intro c hc hcid
      rw [hbody]
      simp [hc, hcid]
    · intro hc
      rw [hbody]
      simp [hc]

/-- Witness for C10: stopping a running current session in a concrete
store clears the current pointer. -/
theorem claim_c10_stop_review_witness :
    (([{ c3Session with status := "running" }].map Session.dataId).Nodup ∧
      ([{ c3Session with status := "running" }].find?
          (fun x => x.dataId == "data-1") =
        some { c3Session with status := "running" }) ∧
      ({ c3Session with status := "running" } : Session).status = "running") ∧
    (handleStopReview true "data-1"
        { sessions := [{ c3Session with status := "running" }],
          currentSession := some { c3Session with status := "running" },
          currentReviewId := some "data-1" }).currentSession = none := by
  have h1 : ([{ c3Session with status := "running" }].map Session.dataId).Nodup := by
    decide
  refine ⟨⟨h1, by decide, rfl⟩, ?_⟩
  exact ((claim_c10_stop_review true "data-1"
      { sessions := [{ c3Session with status := "running" }],
        currentSession := some { c3Session with status := "running" },
        currentReviewId := some "data-1" } h1).2.2.2
    { c3Session with status := "running" } (by decide) rfl rfl).2.2.2.1
    { c3Session with status := "running" } rfl rfl

/-! ### C5 / C6: polling termination and the error threshold -/

theorem pollLoop_stops_at (ticks : Nat → TickResult) :
    ∀ (fuel pollCount q : Nat), pollCount < q → q ≤ pollCount + fuel →
      (∀ j, pollCount < j → j < q → tickContinues ticks j) →
      tickStops ticks q →
      (pollLoop ticks fuel pollCount).polls = q - pollCount ∧
      (pollLoop ticks fuel pollCount).completions = 1 := by
  intro fuel
  induction fuel with
  | zero => intro pollCount q h1 h2 _ _; omega
  | succ fuel ih =>
    intro pollCount q h1 h2 hcont hstop
    by_cases hq : pollCount + 1 = q
    · subst hq
      cases hti : ticks (pollCount + 1) with
      | success st cs =>
        rw [tickStops, hti] at hstop
        by_cases hterm : (st == "completed" || st == "failed") = true
        · have hgoal : pollLoop ticks (fuel + 1) pollCount =
              { polls := 1, completions := 1, delivered := cs.length } := by
            simp [pollLoop, hti, hterm]
          rw [hgoal]
          refine ⟨?_, rfl⟩
          show 1 = pollCount + 1 - pollCount
          omega
        · have hcap : pollCount + 1 ≥ MAX_POLLS := by
            rcases hstop with h | h | h
            · exact absurd (by simp [h]) hterm
            · exact absurd (by simp [h]) hterm
            · exact h
          have hgoal : pollLoop ticks (fuel + 1) pollCount =
              { polls := 1, completions := 1, delivered := cs.length } := by
            simp [pollLoop, hti, hterm, hcap]
          rw [hgoal]
          refine ⟨?_, rfl⟩
          show 1 = pollCount + 1 - pollCount
          omega
      | fetchError =>
        rw [tickStops, hti] at hstop
        have hgoal : pollLoop ticks (fuel + 1) pollCount =
            { polls := 1, completions := 1, delivered := 0 } := by
          simp [pollLoop, hti, show pollCount + 1 ≥ 5 from hstop]
        rw [hgoal]
        refine ⟨?_, rfl⟩
        show 1 = pollCount + 1 - pollCount
        omega
    · have hlt : pollCount + 1 < q := by omega
      have hc := hcont (pollCount + 1) (by omega) hlt
      have hrec := ih (pollCount + 1) q hlt (by omega)
        (fun j hj1 hj2 => hcont j (by omega) hj2) hstop
      cases hti : ticks (pollCount + 1) with
      | success st cs =>
        rw [tickContinues, hti] at hc
        obtain ⟨hc1, hc2, hc3⟩ := hc
        have hterm : (st == "completed" || st == "failed") = false := by
          simp [hc1, hc2]
        have hcap : ¬(pollCount + 1 ≥ MAX_POLLS) := by omega
        have hgoal : pollLoop ticks (fuel + 1) pollCount =
            { polls := (pollLoop ticks fuel (pollCount + 1)).polls + 1,
              completions := (pollLoop ticks fuel (pollCount + 1)).completions,
              delivered := (pollLoop ticks fuel (pollCount + 1)).delivered + cs.length } := by
          simp [pollLoop, hti, hterm, hcap]
        rw [hgoal]
        refine ⟨?_, hrec.2⟩
        show (pollLoop ticks fuel (pollCount + 1)).polls + 1 = q - pollCount
        rw [hrec.1]
        omega
      | fetchError =>
        rw [tickContinues, hti] at hc
        have hc5 : ¬(pollCount + 1 ≥ 5) := by omega
        have hgoal : pollLoop ticks (fuel + 1) pollCount =
            { polls := (pollLoop ticks fuel (pollCount + 1)).polls + 1,
              completions := (pollLoop ticks fuel (pollCount + 1)).completions,
              delivered := (pollLoop ticks fuel (pollCount + 1)).delivered } := by
          simp [pollLoop, hti, hc5]
        rw [hgoal]
        refine ⟨?_, hrec.2⟩
        show (pollLoop ticks fuel (pollCount + 1)).polls + 1 = q - pollCount
        rw [hrec.1]
        omega

theorem pollLoop_nonterminal_bound (ticks : Nat → TickResult)
    (hnt : ∀ n st cs, ticks n = .success st cs →
      st ≠ "completed" ∧ st ≠ "failed") :
    ∀ (fuel pollCount : Nat), MAX_POLLS ≤ fuel + pollCount → 1 ≤ fuel →
      (pollLoop ticks fuel pollCount).completions = 1 ∧
      (pollLoop ticks fuel pollCount).polls ≤ max (MAX_POLLS - pollCount) 1 := by
  have hmp : MAX_POLLS = 1000 := rfl
  intro fuel
  induction fuel with
  | zero => intro pollCount _ h; omega
  | succ fuel ih =>
    intro pollCount hfp _
    cases hti : ticks (pollCount + 1) with
    | success st cs =>
      obtain ⟨h1, h2⟩ := hnt _ _ _ hti
      have hterm : (st == "completed" || st == "failed") = false := by
        simp [h1, h2]
      by_cases hcap : pollCount + 1 ≥ MAX_POLLS
      · have hgoal : pollLoop ticks (fuel + 1) pollCount =
            { polls := 1, completions := 1, delivered := cs.length } := by
          simp [pollLoop, hti, hterm, hcap]
        rw [hgoal]
        refine ⟨rfl, ?_⟩
        show 1 ≤ max (MAX_POLLS - pollCount) 1
        exact le_max_right _ _
      · have hrec := ih (pollCount + 1) (by omega) (by omega)
        have hgoal : pollLoop ticks (fuel + 1) pollCount =
            { polls := (pollLoop ticks fuel (pollCount + 1)).polls + 1,
              completions := (pollLoop ticks fuel (pollCount + 1)).completions,
              delivered := (pollLoop ticks fuel (pollCount + 1)).delivered + cs.length } := by
          simp [pollLoop, hti, hterm, hcap]
        rw [hgoal]
        refine ⟨hrec.1, ?_⟩
        show (pollLoop ticks fuel (pollCount + 1)).polls + 1 ≤ max (MAX_POLLS - pollCount) 1
        have h2 := hrec.2
        rw [Nat.max_def] at h2 ⊢
        split at h2 <;> split <;> omega
    | fetchError =>
      by_cases h5 : pollCount + 1 ≥ 5
      · have hgoal : pollLoop ticks (fuel + 1) pollCount =
            { polls := 1, completions := 1, delivered := 0 } := by
          simp [pollLoop, hti, h5]
        rw [hgoal]
        refine ⟨rfl, ?_⟩
        show 1 ≤ max (MAX_POLLS - pollCount) 1
        exact le_max_right _ _
      · have hrec := ih (pollCount + 1) (by omega) (by omega)
        have hgoal : pollLoop ticks (fuel + 1) pollCount =
            { polls := (pollLoop ticks fuel (pollCount + 1)).polls + 1,
              completions := (pollLoop ticks fuel (pollCount + 1)).completions,
              delivered := (pollLoop ticks fuel (pollCount + 1)).delivered } := by
          simp [pollLoop, hti, h5]
        rw [hgoal]
        refine ⟨hrec.1, ?_⟩
        show (pollLoop ticks fuel (pollCount + 1)).polls + 1 ≤ max (MAX_POLLS - pollCount) 1
        have h2 := hrec.2
        rw [Nat.max_def] at h2 ⊢
        split at h2 <;> split <;> omega

/-- C5.  If the remote service never returns a terminal analysis status,
the polling loop performs at most `MAX_POLLS = 1000` polls, stops, and
invokes the completion callback exactly once; the loop itself never writes
the session's status, and the completion handler writes back only the
(non-terminal) status it fetches, so the session is never marked
`failed`. -/
theorem claim_c5_polling_tick_cap (ticks : Nat → TickResult)
    (hnt : ∀ n st cs, ticks n = .success st cs →
      st ≠ "completed" ∧ st ≠ "failed") :
    (startCommentPolling ticks).polls ≤ MAX_POLLS ∧
    (startCommentPolling ticks).completions = 1 ∧
    (∀ (session : Session) (n : Nat) (st : String) (cs : List RawComment),
      ticks n = .success st cs →
      (onPollingComplete session st).status ≠ "failed") := by
  have h := pollLoop_nonterminal_bound ticks hnt MAX_POLLS 0 (by omega) (by decide)
  refine ⟨?_, h.1, ?_⟩
  · have := h.2
    have hmp : MAX_POLLS = 1000 := rfl
    unfold startCommentPolling
    omega
  · intro session n st cs hticks
    have := (hnt n st cs hticks).2
    simpa [onPollingComplete] using this

/-- Witness for C5: a service forever reporting `running`. -/
theorem claim_c5_polling_tick_cap_witness :
    (∀ n st cs, (fun _ : Nat => TickResult.success "running" []) n =
        .success st cs → st ≠ "completed" ∧ st ≠ "failed") ∧
    (startCommentPolling (fun _ => .success "running" [])).polls ≤ MAX_POLLS ∧
    (startCommentPolling (fun _ => .success "running" [])).completions = 1 := by
  have hnt : ∀ n st cs, (fun _ : Nat => TickResult.success "running" []) n =
      .success st cs → st ≠ "completed" ∧ st ≠ "failed" := by
    intro n st cs h
    injection h with h1 _
    subst h1
    exact ⟨by decide, by decide⟩
  have h := claim_c5_polling_tick_cap (fun _ => .success "running" []) hnt
  exact ⟨hnt, h.1, h.2.1⟩

/-- Counterexample to C6 as stated.  Under `c6Ticks`, ticks 1–4 succeed
with status `running` and tick 5 is a single isolated fetch error, yet the
loop stops there: it performs exactly 5 polls and invokes the completion
callback, because the error branch tests the total poll count
(`pollCount >= 5`, `BeetleService.ts:257`), not a run of consecutive
errors.  The claim says this isolated error should have left polling
running. -/
theorem claim_c6_single_error_counterexample :
    c6Ticks 1 = .success "running" [] ∧
    c6Ticks 2 = .success "running" [] ∧
    c6Ticks 3 = .success "running" [] ∧
    c6Ticks 4 = .success "running" [] ∧
    c6Ticks 5 = .fetchError ∧
    (startCommentPolling c6Ticks).polls = 5 ∧
    (startCommentPolling c6Ticks).completions = 1 := by
  refine ⟨rfl, rfl, rfl, rfl, rfl, ?_, ?_⟩ <;> decide

/-- C6 (amended).  A fetch error stops polling exactly when the tick
counter has reached 5: with a single error on tick `k` and every other
tick a successful non-terminal response, an error on one of the first four
ticks leaves polling running to the 1000-tick cap, while an error on tick
5 or later — however many successful ticks preceded it — stops polling at
that very tick and invokes the completion callback once.  The threshold
counts total polls, not consecutive errors. -/
theorem claim_c6_error_threshold_amended (ticks : Nat → TickResult) (k : Nat)
    (hk1 : 1 ≤ k)
    (herr : ticks k = .fetchError)
    (hothers : ∀ j, j ≠ k → ∀ st cs, ticks j = .success st cs →
      st ≠ "completed" ∧ st ≠ "failed")
    (honlyk : ∀ j, j ≠ k → ticks j ≠ .fetchError) :
    (k < 5 →
      (startCommentPolling ticks).polls = MAX_POLLS ∧
      (startCommentPolling ticks).completions = 1) ∧
    (5 ≤ k → k ≤ MAX_POLLS →
      (startCommentPolling ticks).polls = k ∧
      (startCommentPolling ticks).completions = 1) := by
  have hsucc : ∀ j, j ≠ k → j < MAX_POLLS → tickContinues ticks j := by
    intro j hj hjm
    rw [tickContinues]
    cases hti : ticks j with
    | success st cs =>
      obtain ⟨h1, h2⟩ := hothers j hj st cs hti
      exact ⟨h1, h2, hjm⟩
    | fetchError => exact absurd hti (honlyk j hj)
  constructor
  · intro hk5
    have hstop : tickStops ticks MAX_POLLS := by
      rw [tickStops]
      cases hti : ticks MAX_POLLS with
      | success st cs => exact Or.inr (Or.inr (by omega))
      | fetchError =>
        have : MAX_POLLS = 1000 := rfl
        omega
    have h := pollLoop_stops_at ticks MAX_POLLS 0 MAX_POLLS (by decide) (by omega)
      (fun j hj1 hj2 => by
        by_cases hjk : j = k
        · subst hjk
          rw [tickContinues, herr]
          omega
        · exact hsucc j hjk hj2)
      hstop
    unfold startCommentPolling
    exact ⟨by rw [h.1, Nat.sub_zero], h.2⟩
  · intro hk5 hkcap
    have hstop : tickStops ticks k := by
      rw [tickStops, herr]
      omega
    have h := pollLoop_stops_at ticks MAX_POLLS 0 k (by omega) (by omega)
      (fun j hj1 hj2 => hsucc j (by omega) (by omega))
      hstop
    unfold startCommentPolling
    exact ⟨by rw [h.1, Nat.sub_zero], h.2⟩

/-- Witness for the amended C6, at `k = 5` with `c6Ticks`: the single
isolated error on tick 5 stops the loop at exactly 5 polls. -/
theorem claim_c6_error_threshold_amended_witness :
    (1 ≤ 5 ∧ c6Ticks 5 = .fetchError) ∧
    (startCommentPolling c6Ticks).polls = 5 ∧
    (startCommentPolling c6Ticks).completions = 1 := by
  have hothers : ∀ j, j ≠ 5 → ∀ st cs, c6Ticks j = .success st cs →
      st ≠ "completed" ∧ st ≠ "failed" := by
    intro j hj st cs h
    rw [c6Ticks, if_neg hj] at h
    injection h with h1 _
    subst h1
    exact ⟨by decide, by decide⟩
  have honlyk : ∀ j, j ≠ 5 → c6Ticks j ≠ .fetchError := by
    intro j hj h
    rw [c6Ticks, if_neg hj] at h
    cases h
  have h := (claim_c6_error_threshold_amended c6Ticks 5 (by decide) rfl
    hothers honlyk).2 (by decide) (by decide)
  exact ⟨⟨by decide, rfl⟩, h.1, h.2⟩

/-! ### C4: the empty-hash sentinel -/

/-- C4.  `calculateFileHash` maps empty or whitespace-only content (JS:
falsy or trimming to the empty string, i.e. all characters whitespace) to
the empty string, and any other content to its SHA-256 hex digest — a
deterministic function of the content.  Since a hex digest is never the
empty string, the sentinel is distinct from every real digest, and because
the skip guard of `handleTriggerReview` requires a truthy recorded hash
(`if (lastReviewedHash && ...)`), a file whose consulted record carries an
empty `lastReviewedHash` (or no record at all) is never skipped by the
hash check: it is always treated as changed. -/
theorem claim_c4_hash_sentinel (sha256hex : String → String)
    (hsha : ∀ c, sha256hex c ≠ "") :
    (∀ content, content.data.all Char.isWhitespace = true →
        calculateFileHash sha256hex content = "") ∧
    (∀ content, content.data.all Char.isWhitespace = false →
        calculateFileHash sha256hex content = sha256hex content ∧
        calculateFileHash sha256hex content ≠ "") ∧
    (∀ (env : GitEnv) (sessions : List Session) (change : ChangeEntry),
        (match findLastReviewed sessions change.path with
          | some (_, h) => h = ""
          | none => True) →
        resolveFile env sessions change ≠ .skipHashMatch) := by
  refine ⟨?_, ?_, ?_⟩
  · intro content hws
    simp [calculateFileHash, hws]
  · intro content hws
    constructor
    · simp [calculateFileHash, hws]
    · simp [calculateFileHash, hws]
      exact hsha content
  · intro env sessions change hempty
    cases hf : findLastReviewed sessions change.path with
    | none =>
      simp only [resolveFile, hf]
      split
      · simp_all
      · split
        · split <;> simp
        · simp
    | some pair =>
      obtain ⟨c, h⟩ := pair
      rw [hf] at hempty
      simp only at hempty
      subst hempty
      simp only [resolveFile, hf]
      split
      · simp_all
      · split
        · split <;> simp
        · simp

/-- Witness for C4: a (constant) digest function whose outputs are
non-empty; the hash of `"ab"` is the digest, the hash of whitespace is the
sentinel. -/
theorem claim_c4_hash_sentinel_witness :
    (∀ c, (fun _ : String => "d0d0") c ≠ "") ∧
    calculateFileHash (fun _ => "d0d0") " \n " = "" ∧
    calculateFileHash (fun _ => "d0d0") "ab" = "d0d0" ∧
    calculateFileHash (fun _ => "d0d0") "ab" ≠ "" := by
  have hsha : ∀ c, (fun _ : String => "d0d0") c ≠ "" := by
    intro c
    show ("d0d0" : String) ≠ ""
    decide
  have h := claim_c4_hash_sentinel (fun _ => "d0d0") hsha
  exact ⟨hsha, h.1 " \n " (by decide), (h.2.1 "ab" (by decide)).1,
    (h.2.1 "ab" (by decide)).2⟩

/-! ### C1: the hash-based skip consults only the most recent record -/

theorem resolveFile_emit_filename (env : GitEnv) (sessions : List Session)
    (change : ChangeEntry) (e : SubmissionEntry)
    (h : resolveFile env sessions change = .emit e) : e.filename = change.path := by
  simp only [resolveFile] at h
  split at h
  · cases h
  · split at h
    · split at h
      · cases h
      · injection h with h
        subst h
        rfl
    · injection h with h
      subst h
      rfl

theorem mem_preDedup (env : GitEnv) (sessions : List Session)
    (changes : List ChangeEntry) (e : SubmissionEntry)
    (he : e ∈ preDedup env sessions changes) :
    ∃ ch ∈ changes, resolveFile env sessions ch = .emit e := by
  simp only [preDedup, List.mem_filterMap, List.mem_map] at he
  obtain ⟨o, ⟨ch, hch, ho⟩, hoe⟩ := he
  refine ⟨ch, hch, ?_⟩
  cases o with
  | skipHashMatch => simp [FileOutcome.entry?] at hoe
  | skipEmptyIncremental => simp [FileOutcome.entry?] at hoe
  | emit eo =>
    simp only [FileOutcome.entry?, Option.some.injEq] at hoe
    rw [← hoe]
    exact ho

theorem dedupFilterAux_subset (orig : List SubmissionEntry) :
    ∀ (rest : List SubmissionEntry) (i : Nat) (e : SubmissionEntry),
      e ∈ dedupFilterAux orig i rest → e ∈ rest := by
  intro rest
  induction rest with
  | nil => intro i e he; simp [dedupFilterAux] at he
  | cons f fs ih =>
    intro i e he
    simp only [dedupFilterAux] at he
    by_cases hi : orig.findIdx (fun ff => ff.filename == f.filename) = i
    · rw [if_pos hi] at he
      rcases List.mem_cons.mp he with rfl | he
      · exact List.mem_cons_self _ _
      · exact List.mem_cons_of_mem _ (ih (i + 1) e he)
    · rw [if_neg hi] at he
      exact List.mem_cons_of_mem _ (ih (i + 1) e he)

theorem mem_resolveChangeSet (env : GitEnv) (sessions : List Session)
    (changes : List ChangeEntry) (filePaths : Option (List String))
    (e : SubmissionEntry) (he : e ∈ resolveChangeSet env sessions changes filePaths) :
    e ∈ dedupByFilename (preDedup env sessions changes) ∧
    shouldExcludeFile e.filename = false := by
  have hmem : e ∈ (dedupByFilename (preDedup env sessions changes)).filter
      (fun f => !shouldExcludeFile f.filename) := by
    cases filePaths with
    | none => simpa only [resolveChangeSet] using he
    | some ps =>
      simp only [resolveChangeSet] at he
      by_cases hps : ps.length > 0
      · rw [if_pos hps] at he
        exact List.mem_of_mem_filter he
      · rw [if_neg hps] at he
        exact he
  have := List.mem_filter.mp hmem
  exact ⟨this.1, by simpa using this.2⟩

/-- C1 (amended).  The skip consults the *most recent* session holding a
record for the path with non-empty `lastReviewedContent`: when that
record's `lastReviewedHash` is non-empty and equals the hash of the
current content, the change-set resolution emits no submission entry for
that path. -/
theorem claim_c1_hash_skip_amended (env : GitEnv) (sessions : List Session)
    (changes : List ChangeEntry) (filePaths : Option (List String)) (p c h : String)
    (hfound : findLastReviewed sessions p = some (c, h))
    (hne : h ≠ "")
    (hmatch : calculateFileHash env.sha256hex (env.readFile p) = h) :
    ∀ e ∈ resolveChangeSet env sessions changes filePaths, e.filename ≠ p := by
  intro e he hfn
  have hdedup := (mem_resolveChangeSet env sessions changes filePaths e he).1
  have hpre := dedupFilterAux_subset _ _ _ _ hdedup
  obtain ⟨ch, _, hemit⟩ := mem_preDedup env sessions changes e hpre
  have hpath : ch.path = p := by
    rw [← resolveFile_emit_filename env sessions ch e hemit, hfn]
  rw [resolveFile, hpath, hfound, hmatch] at hemit
  simp [hne] at hemit

/-- Counterexample to C1 as stated.  The current content hash `"#two"`
equals the `lastReviewedHash` recorded for `f.ts` in the stored session
`c1SessionB`, yet the resolution still emits a submission entry for
`f.ts`: the skip check only consults the most recent matching record
(session `c1SessionA`, hash `"#one"`), not every stored session. -/
theorem claim_c1_hash_skip_counterexample :
    calculateFileHash c1Env.sha256hex (c1Env.readFile "f.ts") = "#two" ∧
    c1SessionB.files.map FileGroup.filePath = ["f.ts"] ∧
    c1SessionB.files.map FileGroup.lastReviewedHash = ["#two"] ∧
    (resolveChangeSet c1Env [c1SessionA, c1SessionB]
        [{ path := "f.ts", statusCode := 5 }] none).map SubmissionEntry.filename =
      ["f.ts"] := by
  refine ⟨?_, ?_, ?_, ?_⟩ <;> decide

/-- Witness for the amended C1: with only the most recent record matching
the current hash, the file is excluded. -/
theorem claim_c1_hash_skip_amended_witness :
    (findLastReviewed [c1SessionB] "f.ts" = some ("two", "#two") ∧
      ("#two" : String) ≠ "" ∧
      calculateFileHash c1Env.sha256hex (c1Env.readFile "f.ts") = "#two") ∧
    (∀ e ∈ resolveChangeSet c1Env [c1SessionB]
        [{ path := "f.ts", statusCode := 5 }] none, e.filename ≠ "f.ts") := by
  refine ⟨⟨by decide, by decide, by decide⟩, ?_⟩
  exact claim_c1_hash_skip_amended c1Env [c1SessionB]
    [{ path := "f.ts", statusCode := 5 }] none "f.ts" "two" "#two"
    (by decide) (by decide) (by decide)

/-! ### C7: deduplication keeps the first occurrence, exclusion by extension -/

theorem findIdx_lt_not {α : Type} (p : α → Bool) :
    ∀ (l : List α) (m : Nat) (x : α), m < l.findIdx p → l.get? m = some x →
      p x = false := by
  intro l
  induction l with
  | nil => intro m x _ hx; simp at hx
  | cons a as ih =>
    intro m x hm hx
    rw [List.findIdx_cons] at hm
    by_cases ha : p a
    · simp [ha] at hm
    · simp only [ha, cond_false] at hm
      cases m with
      | zero =>
        simp at hx
        subst hx
        simpa using ha
      | succ m =>
        simp only [List.get?_cons_succ] at hx
        exact ih m x (by omega) hx

theorem dedupFilterAux_findIdx_ge (orig : List SubmissionEntry) :
    ∀ (rest : List SubmissionEntry) (i : Nat) (e : SubmissionEntry),
      e ∈ dedupFilterAux orig i rest →
      i ≤ orig.findIdx (fun ff => ff.filename == e.filename) := by
  intro rest
  induction rest with
  | nil => intro i e he; simp [dedupFilterAux] at he
  | cons f fs ih =>
    intro i e he
    simp only [dedupFilterAux] at he
    by_cases hi : orig.findIdx (fun ff => ff.filename == f.filename) = i
    · rw [if_pos hi] at he
      rcases List.mem_cons.mp he with rfl | he
      · omega
      · have := ih (i + 1) e he
        omega
    · rw [if_neg hi] at he
      have := ih (i + 1) e he
      omega

theorem dedupFilterAux_nodup (orig : List SubmissionEntry) :
    ∀ (rest : List SubmissionEntry) (i : Nat),
      ((dedupFilterAux orig i rest).map SubmissionEntry.filename).Nodup := by
  intro rest
  induction rest with
  | nil => intro i; simp [dedupFilterAux]
  | cons f fs ih =>
    intro i
    simp only [dedupFilterAux]
    by_cases hi : orig.findIdx (fun ff => ff.filename == f.filename) = i
    · rw [if_pos hi]
      simp only [List.map_cons, List.nodup_cons]
      refine ⟨?_, ih (i + 1)⟩
      intro hmem
      obtain ⟨e, he, hefn⟩ := List.mem_map.mp hmem
      have hge := dedupFilterAux_findIdx_ge orig fs (i + 1) e he
      rw [hefn] at hge
      omega
    · rw [if_neg hi]
      exact ih (i + 1)

theorem dedupFilterAux_keepFirst (orig : List SubmissionEntry) :
    ∀ (rest : List SubmissionEntry) (i : Nat),
      (∀ j, rest.get? j = orig.get? (i + j)) →
      ∀ e ∈ dedupFilterAux orig i rest,
        ∃ jj, orig.get? jj = some e ∧
          orig.findIdx (fun ff => ff.filename == e.filename) = jj := by
  intro rest
  induction rest with
  | nil => intro i _ e he; simp [dedupFilterAux] at he
  | cons f fs ih =>
    intro i halign e he
    have htail : ∀ j, fs.get? j = orig.get? (i + 1 + j) := by
      intro j
      have := halign (j + 1)
      simpa [show i + (j + 1) = i + 1 + j by omega] using this
    simp only [dedupFilterAux] at he
    by_cases hi : orig.findIdx (fun ff => ff.filename == f.filename) = i
    · rw [if_pos hi] at he
      rcases List.mem_cons.mp he with rfl | he
      · refine ⟨i, ?_, hi⟩
        have := halign 0
        simpa using this.symm
      · exact ih (i + 1) htail e he
    · rw [if_neg hi] at he
      exact ih (i + 1) htail e he

/-- C7 (amended).  The submitted file list of `handleTriggerReview`
contains at most one entry per filename — keeping the **first** occurrence
when the same path appears in more than one change list (the
`findIndex`-based filter keeps the element whose index equals the index of
the first occurrence) — and contains no file whose lowercased extension is
in `EXCLUDED_EXTENSIONS`. -/
theorem claim_c7_dedup_keeps_first_and_excludes (env : GitEnv)
    (sessions : List Session) (changes : List ChangeEntry)
    (filePaths : Option (List String)) :
    ((resolveChangeSet env sessions changes filePaths).map
        SubmissionEntry.filename).Nodup ∧
    (∀ e ∈ resolveChangeSet env sessions changes filePaths,
        shouldExcludeFile e.filename = false) ∧
    (∀ e ∈ resolveChangeSet env sessions changes filePaths,
        ∃ jj, (preDedup env sessions changes).get? jj = some e ∧
          ∀ m y, m < jj → (preDedup env sessions changes).get? m = some y →
            y.filename ≠ e.filename) := by
  have hnodup : ((dedupByFilename (preDedup env sessions changes)).map
      SubmissionEntry.filename).Nodup :=
    dedupFilterAux_nodup (preDedup env sessions changes) (preDedup env sessions changes) 0
  refine ⟨?_, fun e he => (mem_resolveChangeSet env sessions changes filePaths e he).2, ?_⟩
  · have hsub : List.Sublist (resolveChangeSet env sessions changes filePaths)
        (dedupByFilename (preDedup env sessions changes)) := by
      cases filePaths with
      | none =>
        simp only [resolveChangeSet]
        exact List.filter_sublist _
      | some ps =>
        simp only [resolveChangeSet]
        by_cases hps : ps.length > 0
        · rw [if_pos hps]
          exact (List.filter_sublist _).trans (List.filter_sublist _)
        · rw [if_neg hps]
          exact List.filter_sublist _
    exact hnodup.sublist (List.Sublist.map SubmissionEntry.filename hsub)
  · intro e he
    have hdedup := (mem_resolveChangeSet env sessions changes filePaths e he).1
    have halign : ∀ j, (preDedup env sessions changes).get? j =
        (preDedup env sessions changes).get? (0 + j) := by
      intro j
      simp
    obtain ⟨jj, hget, hfidx⟩ := dedupFilterAux_keepFirst
      (preDedup env sessions changes) (preDedup env sessions changes) 0 halign e hdedup
    refine ⟨jj, hget, ?_⟩
    intro m y hm hy
    have := findIdx_lt_not (fun ff => ff.filename == e.filename)
      (preDedup env sessions changes) m y (by omega) hy
    simpa using this

/-- Counterexample to C7 as stated.  With `p.ts` present in both change
lists, the pre-dedup file data holds two entries — the first with status
`modified`, the last with status `added` — and the resolved list keeps the
**first** occurrence (`modified`), not the last (`added`) as the claim
requires. -/
theorem claim_c7_dedup_counterexample :
    (preDedup c7Env [] [{ path := "p.ts", statusCode := 5 },
        { path := "p.ts", statusCode := 2 }]).map SubmissionEntry.status =
      ["modified", "added"] ∧
    (resolveChangeSet c7Env [] [{ path := "p.ts", statusCode := 5 },
        { path := "p.ts", statusCode := 2 }] none).map SubmissionEntry.status =
      ["modified"] ∧
    (resolveChangeSet c7Env [] [{ path := "p.ts", statusCode := 5 },
        { path := "p.ts", statusCode := 2 }] none).map SubmissionEntry.filename =
      ["p.ts"] := by
  refine ⟨?_, ?_, ?_⟩ <;> decide

end Beetle
